import Mathlib

/-!
Verification development for the brond repository.

Part 1 embeds the wire package's `filteradd` and `getcfilters` messages
(src/wire/msgfilteradd.go, src/wire/msggetcfilters.go).  Byte streams are
`List Nat` with every element below 256; readers consume a list and return
the parsed value together with the remaining bytes.
-/

namespace Wire

/-- Modelled from the spec: the wire codec helpers (`common.go`, with
`WriteVarInt`/`ReadVarInt` and the protocol-version constants) are not in
the shown source slice; the spec treats wire (de)serialization as "a pure
codec".  This is the standard Bitcoin CompactSize variable-length integer:
values below 0xfd occupy one byte, larger values use a discriminant byte
followed by a little-endian fixed-width value. -/
def WriteVarInt (n : Nat) : List Nat :=
  if n < 0xfd then [n]
  else if n ≤ 0xffff then
    [0xfd, n % 256, (n / 256) % 256]
  else if n ≤ 0xffffffff then
    [0xfe, n % 256, (n / 256) % 256, (n / 65536) % 256, (n / 16777216) % 256]
  else
    [0xff, n % 256, (n / 256) % 256, (n / 65536) % 256, (n / 16777216) % 256,
     (n / 4294967296) % 256, (n / 1099511627776) % 256,
     (n / 281474976710656) % 256, (n / 72057594037927936) % 256]

/-- Modelled from the spec: CompactSize reader, inverse of `WriteVarInt`,
rejecting non-canonical encodings as the repository's codec does. -/
def ReadVarInt : List Nat → Except String (Nat × List Nat)
  | [] => .error "unexpected EOF"
  | d :: rest =>
    if d = 0xff then
      match rest with
      | b0 :: b1 :: b2 :: b3 :: b4 :: b5 :: b6 :: b7 :: rs =>
        let v := b0 + 256 * b1 + 65536 * b2 + 16777216 * b3 + 4294967296 * b4 +
          1099511627776 * b5 + 281474976710656 * b6 + 72057594037927936 * b7
        if v < 0x100000000 then .error "non-canonical varint" else .ok (v, rs)
      | _ => .error "unexpected EOF"
    else if d = 0xfe then
      match rest with
      | b0 :: b1 :: b2 :: b3 :: rs =>
        let v := b0 + 256 * b1 + 65536 * b2 + 16777216 * b3
        if v < 0x10000 then .error "non-canonical varint" else .ok (v, rs)
      | _ => .error "unexpected EOF"
    else if d = 0xfd then
      match rest with
      | b0 :: b1 :: rs =>
        let v := b0 + 256 * b1
        if v < 0xfd then .error "non-canonical varint" else .ok (v, rs)
      | _ => .error "unexpected EOF"
    else .ok (d, rest)

/-- Modelled from the spec: `WriteVarBytes` from the missing codec slice —
a CompactSize length followed by the raw bytes. -/
def WriteVarBytes (_pver : Nat) (bytes : List Nat) : List Nat :=
  WriteVarInt bytes.length ++ bytes

/-- Modelled from the spec: `ReadVarBytes` from the missing codec slice —
read a CompactSize count, fail if it exceeds `maxAllowed`, then read that
many bytes. -/
def ReadVarBytes (_pver : Nat) (maxAllowed : Nat) (buf : List Nat) :
    Except String (List Nat × List Nat) := do
  let (count, rest) ← ReadVarInt buf
  if count > maxAllowed then
    .error "variable length byte array is too long"
  else if rest.length < count then
    .error "unexpected EOF"
  else
    .ok (rest.take count, rest.drop count)

/-- Modelled from the spec: protocol-version constant at which BIP 37 bloom
filtering (and the `filteradd` message) was introduced; the constant's
declaration (`protocol.go`) is outside the shown slice. -/
def BIP0037Version : Nat := 70001

/-- Modelled from the spec: protocol-version constant at which the
`feefilter` message was introduced. -/
def FeeFilterVersion : Nat := 70013

/-- `MaxFilterAddDataSize` from src/wire/msgfilteradd.go: the maximum byte
size of a data element to add to the Bloom filter. -/
def MaxFilterAddDataSize : Nat := 520

/-- `MsgFilterAdd` from src/wire/msgfilteradd.go. -/
structure MsgFilterAdd where
  Data : List Nat
deriving DecidableEq, Repr

/-- `MsgFilterAdd.BronDecode` from src/wire/msgfilteradd.go: reject protocol
versions below `BIP0037Version`, then read the data as var-bytes bounded by
`MaxFilterAddDataSize`. -/
def MsgFilterAdd.BronDecode (pver : Nat) (buf : List Nat) :
    Except String (MsgFilterAdd × List Nat) :=
  if pver < BIP0037Version then
    .error "filteradd message invalid for protocol version"
  else do
    let (data, rest) ← ReadVarBytes pver MaxFilterAddDataSize buf
    .ok (⟨data⟩, rest)

/-- `MsgFilterAdd.BronEncode` from src/wire/msgfilteradd.go: reject protocol
versions below `BIP0037Version` and payloads above `MaxFilterAddDataSize`
before anything is written; otherwise emit the var-bytes encoding. -/
def MsgFilterAdd.BronEncode (msg : MsgFilterAdd) (pver : Nat) :
    Except String (List Nat) :=
  if pver < BIP0037Version then
    .error "filteradd message invalid for protocol version"
  else if msg.Data.length > MaxFilterAddDataSize then
    .error "filteradd size too large for message"
  else
    .ok (WriteVarBytes pver msg.Data)

/-- Modelled from the spec: `readElement` on a single byte (the codec
helper is outside the shown slice). -/
def readUint8 : List Nat → Except String (Nat × List Nat)
  | [] => .error "unexpected EOF"
  | b :: rest => .ok (b, rest)

/-- Modelled from the spec: `readElement` on a little-endian uint32. -/
def readUint32LE : List Nat → Except String (Nat × List Nat)
  | b0 :: b1 :: b2 :: b3 :: rest =>
    .ok (b0 + 256 * b1 + 65536 * b2 + 16777216 * b3, rest)
  | _ => .error "unexpected EOF"

/-- Modelled from the spec: `readElement` on a 32-byte `chainhash.Hash`. -/
def readHash32 (buf : List Nat) : Except String (List Nat × List Nat) :=
  if buf.length < 32 then .error "unexpected EOF"
  else .ok (buf.take 32, buf.drop 32)

/-- Modelled from the spec: `writeElement` on a single byte. -/
def writeUint8 (n : Nat) : List Nat := [n % 256]

/-- Modelled from the spec: `writeElement` on a little-endian uint32. -/
def writeUint32LE (n : Nat) : List Nat :=
  [n % 256, (n / 256) % 256, (n / 65536) % 256, (n / 16777216) % 256]

/-- `MsgGetCFilters` from src/wire/msggetcfilters.go; `FilterType` is a
byte (`Nat` below 256), `StartHeight` a uint32 (`Nat` below 2^32), and
`StopHash` a 32-byte hash (`List Nat` of length 32). -/
structure MsgGetCFilters where
  FilterType : Nat
  StartHeight : Nat
  StopHash : List Nat
deriving DecidableEq, Repr

/-- `MsgGetCFilters.BronDecode` from src/wire/msggetcfilters.go: reads the
filter type, start height and stop hash in order, with no protocol-version
check. -/
def MsgGetCFilters.BronDecode (_pver : Nat) (buf : List Nat) :
    Except String (MsgGetCFilters × List Nat) := do
  let (ft, r1) ← readUint8 buf
  let (sh, r2) ← readUint32LE r1
  let (stop, r3) ← readHash32 r2
  .ok (⟨ft, sh, stop⟩, r3)

/-- `MsgGetCFilters.BronEncode` from src/wire/msggetcfilters.go: writes the
filter type, start height and stop hash in order, with no protocol-version
check; the pure byte-list writer cannot fail, matching the Go code whose
only failure source is the underlying `io.Writer`. -/
def MsgGetCFilters.BronEncode (msg : MsgGetCFilters) (_pver : Nat) : List Nat :=
  writeUint8 msg.FilterType ++ writeUint32LE msg.StartHeight ++ msg.StopHash

end Wire

/-!
Part 2 embeds src/netsync/interface.go: the `PeerNotifier` outbound
interface and the `Config` construction struct.  The collaborator types
(`blockchain.BlockChain`, `mempool.TxPool`, …) are external to the sync
engine per spec section 1 and appear only as opaque placeholder types.
-/

namespace Netsync

/-- Placeholder for the external `mempool.TxDesc` type. -/
structure TxDesc where
  ident : Nat
deriving DecidableEq

/-- Placeholder for the external `chainhash.Hash` type. -/
structure ChainHash where
  ident : Nat
deriving DecidableEq

/-- Placeholder for the external `peer.Peer` type. -/
structure Peer where
  ident : Nat
deriving DecidableEq

/-- Placeholder for the external `wire.InvVect` type. -/
structure WireInvVect where
  ident : Nat
deriving DecidableEq

/-- Placeholder for the dynamically typed `interface\x7b\x7d` data argument of
`RelayInventory`. -/
structure RelayData where
  ident : Nat
deriving DecidableEq

/-- Placeholder for the external `bronutil.Tx` type. -/
structure UtilTx where
  ident : Nat
deriving DecidableEq

/-- Placeholder for the external `blockchain.BlockChain` type. -/
structure BlockChain where
  ident : Nat
deriving DecidableEq

/-- Placeholder for the external `mempool.TxPool` type. -/
structure TxPool where
  ident : Nat
deriving DecidableEq

/-- Placeholder for the external `chaincfg.Params` type. -/
structure ChainParams where
  ident : Nat
deriving DecidableEq

/-- Placeholder for the external `mempool.FeeEstimator` type. -/
structure FeeEstimator where
  ident : Nat
deriving DecidableEq

/-- `PeerNotifier` from src/netsync/interface.go: the outbound interface
implemented by the surrounding node.  Each Go method becomes a function
field; methods return nothing, so their result type is `Unit`. -/
structure PeerNotifier where
  AnnounceNewTransactions : List TxDesc → Unit
  UpdatePeerHeights : ChainHash → Int → Peer → Unit
  RelayInventory : WireInvVect → RelayData → Unit
  TransactionConfirmed : UtilTx → Unit

/-- The four method types of `PeerNotifier`, as a product. -/
abbrev PeerNotifierRepr : Type :=
  (List TxDesc → Unit) × (ChainHash → Int → Peer → Unit) ×
    (WireInvVect → RelayData → Unit) × (UtilTx → Unit)

/-- Projection of a `PeerNotifier` onto its four methods. -/
def PeerNotifier.repr (pn : PeerNotifier) : PeerNotifierRepr :=
  (pn.AnnounceNewTransactions, pn.UpdatePeerHeights, pn.RelayInventory,
   pn.TransactionConfirmed)

/-- A call across the `PeerNotifier` interface of
src/netsync/interface.go: one constructor per method, carrying exactly the
method's declared arguments. -/
inductive PeerNotifierCall where
  | announceNewTransactions (newTxs : List TxDesc)
  | updatePeerHeights (latestBlkHash : ChainHash) (latestHeight : Int)
      (updateSource : Peer)
  | relayInventory (invVect : WireInvVect) (data : RelayData)
  | transactionConfirmed (tx : UtilTx)
deriving DecidableEq

/-- The four method-argument signatures of `PeerNotifier`, as a sum. -/
abbrev PeerNotifierCallRepr : Type :=
  (List TxDesc) ⊕ (ChainHash × Int × Peer) ⊕ (WireInvVect × RelayData) ⊕ UtilTx

/-- Projection of an interface call onto the method-argument sum. -/
def PeerNotifierCall.repr : PeerNotifierCall → PeerNotifierCallRepr
  | .announceNewTransactions txs => Sum.inl txs
  | .updatePeerHeights h ht src => Sum.inr (Sum.inl (h, ht, src))
  | .relayInventory iv d => Sum.inr (Sum.inr (Sum.inl (iv, d)))
  | .transactionConfirmed tx => Sum.inr (Sum.inr (Sum.inr tx))

/-- `Config` from src/netsync/interface.go: the single construction-time
configuration struct of the sync manager, with its seven fields in source
order.  `MaxPeers` is a Go `int`, embedded as `Int`. -/
structure Config where
  PeerNotifier : PeerNotifier
  Chain : BlockChain
  TxMemPool : TxPool
  ChainParams : ChainParams
  DisableCheckpoints : Bool
  MaxPeers : Int
  FeeEstimator : FeeEstimator

/-- The seven field types of `Config`, as a product. -/
abbrev ConfigRepr : Type :=
  PeerNotifier × BlockChain × TxPool × ChainParams × Bool × Int × FeeEstimator

/-- Projection of a `Config` onto its seven fields. -/
def Config.repr (c : Config) : ConfigRepr :=
  (c.PeerNotifier, c.Chain, c.TxMemPool, c.ChainParams, c.DisableCheckpoints,
   c.MaxPeers, c.FeeEstimator)

end Netsync

/-!
Part 3 models the sync manager itself.  The manager's implementation file
is not part of the shown source slice (only its interface and log setup
are), so the event loop below is modelled from the spec, sections 3-5: a
single serialized decision loop consuming typed events and owning the peer
state table, the RequestedMap, the HeaderChain and the block download
pipeline.
-/

namespace SyncModel

/-- Peer handles are identifiers; back-references are (ID, table) lookups
per the spec's design notes. -/
abbrev PeerId := Nat

/-- Content-addressed fingerprints of blocks and transactions. -/
abbrev BlockHash := Nat

/-- Modelled from the spec: inventory type tags
(Block, Tx, FilteredBlock, WitnessBlock, WitnessTx). -/
inductive InvKind where
  | block
  | tx
  | filteredBlock
  | witnessBlock
  | witnessTx
deriving DecidableEq, Repr

/-- Modelled from the spec: an inventory fingerprint, a tagged variant
compared by (tag, hash). -/
structure InvVect where
  kind : InvKind
  hash : BlockHash
deriving DecidableEq, Repr

/-- Modelled from the spec: a block header carrying its own hash, the hash
of its parent, and the outcome of its proof-of-work check (abstracted to a
boolean since consensus validation is an external collaborator). -/
structure Header where
  hashH : BlockHash
  prevH : BlockHash
  powOk : Bool
deriving DecidableEq, Repr

/-- Modelled from the spec: `PeerSyncState`, the per-peer bookkeeping record
(spec section 3).  The bounded `knownInventory` LRU and stall deadlines are
relay/timing concerns outside the claims modelled here. -/
structure PeerState where
  requestedTxns : List InvVect
  requestedBlocks : List InvVect
  syncCandidate : Bool
  height : Nat
  lastAnnouncedBlock : Option BlockHash
deriving DecidableEq, Repr

/-- Modelled from the spec: global node states of the state-machine summary
(spec section 4.7). -/
inductive Phase where
  | discovering
  | syncingHeaders
  | syncingBlocks
  | current
deriving DecidableEq, Repr

/-- Modelled from the spec: outbound message intents emitted by the
decision loop.  A `getHeaders` intent carries the tip hash from which the
block locator is computed. -/
inductive Action where
  | getHeaders (dst : PeerId) (locatorTip : BlockHash)
  | getData (dst : PeerId) (invs : List InvVect)
deriving DecidableEq, Repr

/-- Modelled from the spec: the state owned by the single decision task —
peer state table, RequestedMap, HeaderChain, the in-order submission log to
the validator (`validatorLog` during catch-up, `currentLog` once current),
the out-of-order block buffer, the download-window cursor into the
HeaderChain, and the outbox of emitted message intents. -/
structure SMState where
  peers : List (PeerId × PeerState)
  banned : List PeerId
  syncPeer : Option PeerId
  phase : Phase
  headerChain : List Header
  requestedMap : List (InvVect × PeerId)
  validatorLog : List BlockHash
  currentLog : List BlockHash
  blockBuffer : List BlockHash
  reqIndex : Nat
  outbox : List Action
deriving DecidableEq, Repr

/-- Modelled from the spec: headers arrive in batches of up to 2000. -/
def MaxBlockHeadersPerMsg : Nat := 2000

/-- Modelled from the spec: the parallel block download window W
(default 16). -/
def BlockDownloadWindow : Nat := 16

/-- A freshly connected peer's sync state. -/
def initPeerState (cand : Bool) (height : Nat) : PeerState :=
  ⟨[], [], cand, height, none⟩

/-- Local best height: blocks submitted to the validator so far. -/
def SMState.localHeight (s : SMState) : Nat := s.validatorLog.length

/-- Hash of the HeaderChain tip (genesis, hash 0, when empty). -/
def headerTip (chain : List Header) : BlockHash :=
  match chain.getLast? with
  | none => 0
  | some h => h.hashH

/-- Modelled from the spec: sync-peer selection (section 4.3) — the first
peer, in insertion order, that is a sync candidate with self-reported
height at least the local best height; emit a getheaders from the local
locator on selection. -/
def selectSyncPeer (s : SMState) : SMState :=
  match s.peers.find? (fun pp =>
      pp.2.syncCandidate && decide (s.localHeight ≤ pp.2.height)) with
  | some pp =>
    { s with syncPeer := some pp.1, phase := .syncingHeaders,
             outbox := s.outbox ++ [.getHeaders pp.1 (headerTip s.headerChain)] }
  | none => { s with syncPeer := none, phase := .discovering }

/-- Apply `f` to the state of peer `p` in the peer table. -/
def updatePeerState (s : SMState) (p : PeerId) (f : PeerState → PeerState) :
    SMState :=
  { s with peers := s.peers.map (fun pp => if pp.1 = p then (pp.1, f pp.2) else pp) }

/-- Modelled from the spec: record an outstanding request for `iv` at peer
`p` — skipped when the fingerprint already has an in-flight request in the
RequestedMap (section 4.5 step 2) or the peer is unknown; otherwise the
fingerprint enters the peer's requested set, the RequestedMap entry is
created, and a getdata intent is emitted. -/
def recordRequest (s : SMState) (p : PeerId) (iv : InvVect) (isBlock : Bool) :
    SMState :=
  if (s.requestedMap.lookup iv).isSome || (s.peers.lookup p).isNone then s
  else
    let s1 := updatePeerState s p (fun ps =>
      if isBlock then { ps with requestedBlocks := ps.requestedBlocks ++ [iv] }
      else { ps with requestedTxns := ps.requestedTxns ++ [iv] })
    { s1 with requestedMap := s1.requestedMap ++ [(iv, p)],
              outbox := s1.outbox ++ [.getData p [iv]] }

/-- Drop the fulfilled request for `iv` at peer `p`: the RequestedMap entry
and the fingerprint in the peer's requested sets are removed together. -/
def removeRequest (s : SMState) (p : PeerId) (iv : InvVect) : SMState :=
  let s1 := updatePeerState s p (fun ps =>
    { ps with
      requestedBlocks := ps.requestedBlocks.filter (fun jv => decide (jv ≠ iv)),
      requestedTxns := ps.requestedTxns.filter (fun jv => decide (jv ≠ iv)) })
  { s1 with
    requestedMap := s1.requestedMap.filter (fun e => decide (¬(e.1 = iv ∧ e.2 = p))) }

/-- Destroy peer `p` (whose state is `ps`): remove every RequestedMap entry
whose fingerprint is in the peer's requestedBlocks or requestedTxns, and
the peer's table entry. -/
def dropPeer (s : SMState) (p : PeerId) (ps : PeerState) : SMState :=
  { s with
    requestedMap := s.requestedMap.filter
      (fun e => decide (e.1 ∉ ps.requestedBlocks ++ ps.requestedTxns)),
    peers := s.peers.filter (fun pp => decide (pp.1 ≠ p)) }

/-- Modelled from the spec: tearing down a peer (section 4.2) — every
RequestedMap entry whose fingerprint is in the peer's requestedBlocks or
requestedTxns is removed so another peer may be asked, the peer state is
destroyed, and if the peer was the sync peer a re-selection is
triggered. -/
def purgePeer (s : SMState) (p : PeerId) : SMState :=
  match s.peers.lookup p with
  | none => s
  | some ps =>
    if s.syncPeer = some p then
      selectSyncPeer { dropPeer s p ps with syncPeer := none }
    else dropPeer s p ps

/-- Modelled from the spec: ban + disconnect (failure classification,
section 4.7). -/
def banPeer (s : SMState) (p : PeerId) : SMState :=
  purgePeer { s with banned := p :: s.banned } p

/-- Create the peer-table entry for a freshly connected peer. -/
def addPeer (s : SMState) (p : PeerId) (cand : Bool) (height : Nat) : SMState :=
  { s with peers := s.peers ++ [(p, initPeerState cand height)] }

/-- Modelled from the spec: NewPeer — create the peer state and, when no
sync peer is chosen, run the selector. -/
def handleNewPeer (s : SMState) (p : PeerId) (cand : Bool) (height : Nat) :
    SMState :=
  if decide (p ∈ s.banned) || (s.peers.lookup p).isSome then s
  else if s.syncPeer.isNone then selectSyncPeer (addPeer s p cand height)
  else addPeer s p cand height

/-- Transaction-flavoured inventory tags. -/
def InvKind.isTx : InvKind → Bool
  | .tx => true
  | .witnessTx => true
  | _ => false

/-- Modelled from the spec: one announced fingerprint of an InvMsg
(section 4.5) — transactions not already in flight are requested from the
announcer; block announcements during catch-up are recorded as
`lastAnnouncedBlock` only (single-source ordering), and are requested only
once current. -/
def handleInvVect (p : PeerId) (s : SMState) (iv : InvVect) : SMState :=
  if iv.kind.isTx then recordRequest s p iv false
  else if s.phase ≠ .current then
    updatePeerState s p (fun ps => { ps with lastAnnouncedBlock := some iv.hash })
  else recordRequest s p iv true

/-- Modelled from the spec: InvMsg — process each announced fingerprint in
order; announcements from unknown peers are ignored. -/
def handleInvMsg (s : SMState) (p : PeerId) (ivs : List InvVect) : SMState :=
  if (s.peers.lookup p).isNone then s
  else ivs.foldl (handleInvVect p) s

/-- Modelled from the spec: verify a headers batch — each header must pass
its proof-of-work check and link to the preceding header (the first to the
current tip). -/
def checkHeaders (prev : BlockHash) : List Header → Bool
  | [] => true
  | h :: rest => h.powOk && h.prevH == prev && checkHeaders h.hashH rest

/-- Number of block requests in flight at peer `p`. -/
def outstandingBlocks (s : SMState) (p : PeerId) : Nat :=
  match s.peers.lookup p with
  | none => 0
  | some ps => ps.requestedBlocks.length

/-- Modelled from the spec: top up the parallel download window (section
4.4) — draw the next fingerprints in order from the HeaderChain, up to W
outstanding block requests to the sync peer. -/
def requestBlockWindow (s : SMState) : SMState :=
  match s.syncPeer with
  | none => s
  | some sp =>
    let want := BlockDownloadWindow - outstandingBlocks s sp
    let cands := (s.headerChain.drop s.reqIndex).take want
    let s1 := cands.foldl (fun st h => recordRequest st sp ⟨.block, h.hashH⟩ true) s
    { s1 with reqIndex := s1.reqIndex + cands.length }

/-- Modelled from the spec: hand buffered blocks to the validator strictly
in HeaderChain order — repeatedly submit the next expected HeaderChain
entry while its block is in the buffer.  The fuel argument (the buffer
size suffices) only bounds the recursion. -/
def drain (chain : List Header) :
    Nat → List BlockHash → List BlockHash → List BlockHash × List BlockHash
  | 0, log, buf => (log, buf)
  | fuel + 1, log, buf =>
    match chain[log.length]? with
    | none => (log, buf)
    | some hd =>
      if hd.hashH ∈ buf then
        drain chain fuel (log ++ [hd.hashH]) (buf.erase hd.hashH)
      else (log, buf)

/-- Buffer the newly arrived block `h` and drain the buffer to the
validator in HeaderChain order. -/
def drainBuffer (s : SMState) (h : BlockHash) : SMState :=
  { s with
    validatorLog := (drain s.headerChain (s.blockBuffer ++ [h]).length
      s.validatorLog (s.blockBuffer ++ [h])).1,
    blockBuffer := (drain s.headerChain (s.blockBuffer ++ [h]).length
      s.validatorLog (s.blockBuffer ++ [h])).2 }

/-- Modelled from the spec: progress of the block-download phase on a block
arrival — drain the buffer in order; when the whole HeaderChain has been
submitted the node becomes current, otherwise the download window is
topped back up. -/
def advanceBlocks (s : SMState) (h : BlockHash) : SMState :=
  if (drainBuffer s h).validatorLog.length = s.headerChain.length then
    { drainBuffer s h with phase := .current }
  else requestBlockWindow (drainBuffer s h)

/-- Modelled from the spec: BlockMsg — unsolicited blocks (no RequestedMap
entry pointing at the sender) are ignored; otherwise the request
bookkeeping is cleared and, during catch-up, the block is buffered and the
buffer drained to the validator in HeaderChain order, topping the window
back up (or becoming current at the tip); once current, blocks are
submitted in arrival order. -/
def handleBlockMsg (s : SMState) (p : PeerId) (h : BlockHash) : SMState :=
  if (s.peers.lookup p).isNone then s
  else if s.requestedMap.lookup ⟨.block, h⟩ ≠ some p then s
  else if s.phase = .current then
    { removeRequest s p ⟨.block, h⟩ with
      currentLog := (removeRequest s p ⟨.block, h⟩).currentLog ++ [h] }
  else if s.phase = .syncingBlocks then
    advanceBlocks (removeRequest s p ⟨.block, h⟩) h
  else removeRequest s p ⟨.block, h⟩

/-- Modelled from the spec: TxMsg — clear the request bookkeeping for a
transaction that was in flight to the sender (mempool admission itself is
an external collaborator). -/
def handleTxMsg (s : SMState) (p : PeerId) (h : BlockHash) : SMState :=
  if (s.peers.lookup p).isNone then s
  else
    let iv : InvVect := ⟨.tx, h⟩
    if s.requestedMap.lookup iv ≠ some p then s
    else removeRequest s p iv

/-- Modelled from the spec: HeadersMsg (section 4.4) — batches from anyone
but the sync peer, or outside the headers-first phase, are ignored.  A
batch failing PoW/linkage verification is rejected whole: the HeaderChain
is unchanged and the sender is banned (triggering re-selection).  A valid
batch is appended; a full batch (2000) triggers the next getheaders from
the new tip's locator, a partial batch transitions to the block-download
phase and fills the download window. -/
def handleHeadersMsg (s : SMState) (p : PeerId) (hs : List Header) : SMState :=
  if (s.peers.lookup p).isNone then s
  else if s.syncPeer ≠ some p then s
  else if s.phase ≠ .syncingHeaders then s
  else if checkHeaders (headerTip s.headerChain) hs then
    if hs.length = MaxBlockHeadersPerMsg then
      { s with headerChain := s.headerChain ++ hs,
               outbox := s.outbox ++
                 [.getHeaders p (headerTip (s.headerChain ++ hs))] }
    else
      requestBlockWindow { s with headerChain := s.headerChain ++ hs,
                                  phase := .syncingBlocks }
  else banPeer s p

/-- Modelled from the spec: the typed events of the intake queue that
drive the state modelled here (section 4.1). -/
inductive Event where
  | newPeer (p : PeerId) (syncCandidate : Bool) (height : Nat)
  | donePeer (p : PeerId)
  | invMsg (p : PeerId) (invs : List InvVect)
  | headersMsg (p : PeerId) (headers : List Header)
  | blockMsg (p : PeerId) (hash : BlockHash)
  | txMsg (p : PeerId) (hash : BlockHash)
deriving DecidableEq, Repr

/-- The manager's state at startup: no peers, empty tables. -/
def initState : SMState := ⟨[], [], none, .discovering, [], [], [], [], [], 0, []⟩

/-- Modelled from the spec: the serialized decision loop, one event at a
time. -/
def step (s : SMState) : Event → SMState
  | .newPeer p c ht => handleNewPeer s p c ht
  | .donePeer p => purgePeer s p
  | .invMsg p ivs => handleInvMsg s p ivs
  | .headersMsg p hs => handleHeadersMsg s p hs
  | .blockMsg p h => handleBlockMsg s p h
  | .txMsg p h => handleTxMsg s p h

/-- The state reached from startup by a trace of events. -/
def run (evs : List Event) : SMState := evs.foldl step initState

/-- The inductive invariant of the decision loop: RequestedMap keys and
peer-table keys have no duplicates, every RequestedMap entry points to a
connected peer holding the fingerprint in its requested sets, every
fingerprint in a peer's requested sets has its RequestedMap entry, and the
blocks submitted to the validator during catch-up are an in-order initial
segment of the HeaderChain. -/
structure GoodState (s : SMState) : Prop where
  mapKeysNodup : (s.requestedMap.map Prod.fst).Nodup
  peerKeysNodup : (s.peers.map Prod.fst).Nodup
  mapToPeer : ∀ iv p, (iv, p) ∈ s.requestedMap →
    ∃ ps, (p, ps) ∈ s.peers ∧ (iv ∈ ps.requestedBlocks ∨ iv ∈ ps.requestedTxns)
  peerToMap : ∀ p ps, (p, ps) ∈ s.peers →
    ∀ iv, iv ∈ ps.requestedBlocks ∨ iv ∈ ps.requestedTxns → (iv, p) ∈ s.requestedMap
  logInChainOrder : (s.headerChain.map Header.hashH).take s.validatorLog.length = s.validatorLog

end SyncModel

/-!
Theorems.  First a layer of association-list helper lemmas, then the
preservation of `SyncModel.GoodState` by every event handler, then the
claim theorems.
-/

namespace SyncModel

theorem lookup_cons {α β : Type} [DecidableEq α] (a k : α) (b : β)
    (t : List (α × β)) :
    List.lookup a ((k, b) :: t) = if a = k then some b else List.lookup a t := by
  by_cases h : a = k
  · simp [List.lookup, h]
  · have hb : (a == k) = false := beq_eq_false_iff_ne.mpr h
    simp [List.lookup, hb, h]

theorem lookup_mem {α β : Type} [DecidableEq α] {l : List (α × β)} {a : α}
    {b : β} (h : List.lookup a l = some b) : (a, b) ∈ l := by
  induction l with
  | nil => simp [List.lookup] at h
  | cons e t ih =>
    obtain ⟨k, c⟩ := e
    rw [lookup_cons] at h
    by_cases hak : a = k
    · rw [if_pos hak] at h
      cases h
      subst hak
      exact List.mem_cons_self _ _
    · rw [if_neg hak] at h
      exact List.mem_cons_of_mem _ (ih h)

theorem mem_keys_lookup_isSome {α β : Type} [DecidableEq α]
    {l : List (α × β)} {a : α} {b : β} (h : (a, b) ∈ l) :
    (List.lookup a l).isSome = true := by
  induction l with
  | nil => simp at h
  | cons e t ih =>
    obtain ⟨k, c⟩ := e
    rw [lookup_cons]
    by_cases hak : a = k
    · simp [hak]
    · rw [if_neg hak]
      rcases List.mem_cons.mp h with heq | hmem
      · cases heq; exact absurd rfl hak
      · exact ih hmem

theorem lookup_none_not_mem {α β : Type} [DecidableEq α]
    {l : List (α × β)} {a : α} {b : β} (h : List.lookup a l = none)
    (hm : (a, b) ∈ l) : False := by
  have := mem_keys_lookup_isSome hm
  rw [h] at this
  simp at this

theorem keys_nodup_mem_unique {α β : Type} [DecidableEq α]
    {l : List (α × β)} (hnd : (l.map Prod.fst).Nodup) {a : α} {b₁ b₂ : β}
    (h₁ : (a, b₁) ∈ l) (h₂ : (a, b₂) ∈ l) : b₁ = b₂ := by
  induction l with
  | nil => simp at h₁
  | cons e t ih =>
    obtain ⟨k, c⟩ := e
    rw [List.map_cons, List.nodup_cons] at hnd
    rcases List.mem_cons.mp h₁ with he₁ | hm₁ <;>
      rcases List.mem_cons.mp h₂ with he₂ | hm₂
    · cases he₁; cases he₂; rfl
    · cases he₁
      exact absurd (List.mem_map.mpr ⟨_, hm₂, rfl⟩) hnd.1
    · cases he₂
      exact absurd (List.mem_map.mpr ⟨_, hm₁, rfl⟩) hnd.1
    · exact ih hnd.2 hm₁ hm₂

theorem nodup_append_singleton {α : Type} {l : List α} {a : α}
    (ha : a ∉ l) (hl : l.Nodup) : (l ++ [a]).Nodup := by
  rw [List.nodup_append]
  refine ⟨hl, List.nodup_singleton a, ?_⟩
  intro x hx hxa
  rw [List.mem_singleton] at hxa
  subst hxa
  exact ha hx

theorem keys_map_fst_preserved {α β : Type} (l : List (α × β))
    (g : (α × β) → (α × β)) (hg : ∀ pp, (g pp).1 = pp.1) :
    ((l.map g).map Prod.fst) = l.map Prod.fst := by
  induction l with
  | nil => rfl
  | cons e t ih => simp [hg e, ih]

theorem lookup_eq_none_of_not_mem {α β : Type} [DecidableEq α]
    {l : List (α × β)} {a : α} (h : ∀ b, (a, b) ∉ l) :
    List.lookup a l = none := by
  cases hl : List.lookup a l with
  | none => rfl
  | some b => exact absurd (lookup_mem hl) (h b)

theorem not_mem_keys_of_lookup_none {α β : Type} [DecidableEq α]
    {l : List (α × β)} {a : α} (h : List.lookup a l = none) :
    a ∉ l.map Prod.fst := by
  intro hmem
  obtain ⟨⟨a', b⟩, hm, heq⟩ := List.mem_map.mp hmem
  cases heq
  exact lookup_none_not_mem h hm

theorem GoodState.ofEq {s s' : SMState} (hs : GoodState s)
    (hp : s'.peers = s.peers) (hm : s'.requestedMap = s.requestedMap)
    (hc : s'.headerChain = s.headerChain)
    (hl : s'.validatorLog = s.validatorLog) : GoodState s' := by
  constructor
  · rw [hm]; exact hs.mapKeysNodup
  · rw [hp]; exact hs.peerKeysNodup
  · rw [hm, hp]; exact hs.mapToPeer
  · rw [hp, hm]; exact hs.peerToMap
  · rw [hc, hl]; exact hs.logInChainOrder

theorem goodState_selectSyncPeer {s : SMState} (hs : GoodState s) :
    GoodState (selectSyncPeer s) := by
  rw [selectSyncPeer]
  cases s.peers.find? (fun pp =>
      pp.2.syncCandidate && decide (s.localHeight ≤ pp.2.height)) with
  | none => exact hs.ofEq rfl rfl rfl rfl
  | some pp => exact hs.ofEq rfl rfl rfl rfl

theorem selectSyncPeer_ne {s : SMState} {p : PeerId}
    (hnp : ∀ ps, (p, ps) ∉ s.peers) :
    (selectSyncPeer s).syncPeer ≠ some p := by
  rw [selectSyncPeer]
  cases hf : s.peers.find? (fun pp =>
      pp.2.syncCandidate && decide (s.localHeight ≤ pp.2.height)) with
  | none => simp
  | some pp =>
    simp only [Option.some.injEq, ne_eq]
    intro hcontra
    exact hnp pp.2 (hcontra ▸ List.mem_of_find?_eq_some hf)

theorem updatePeerState_keys (s : SMState) (p : PeerId)
    (f : PeerState → PeerState) :
    ((updatePeerState s p f).peers.map Prod.fst) = s.peers.map Prod.fst := by
  apply keys_map_fst_preserved
  intro pp
  by_cases h : pp.1 = p <;> simp [h]

theorem mem_updatePeerState {s : SMState} {p : PeerId}
    {f : PeerState → PeerState} {q : PeerId} {ps' : PeerState} :
    (q, ps') ∈ (updatePeerState s p f).peers ↔
      ∃ ps, (q, ps) ∈ s.peers ∧
        ((q = p ∧ ps' = f ps) ∨ (q ≠ p ∧ ps' = ps)) := by
  show (q, ps') ∈ s.peers.map (fun pp => if pp.1 = p then (pp.1, f pp.2) else pp) ↔ _
  rw [List.mem_map]
  constructor
  · rintro ⟨⟨k, ps⟩, hmem, heq⟩
    by_cases h : k = p
    · rw [if_pos h] at heq
      injection heq with h1 h2
      subst h1; subst h2
      exact ⟨ps, hmem, Or.inl ⟨h, rfl⟩⟩
    · rw [if_neg h] at heq
      injection heq with h1 h2
      subst h1; subst h2
      exact ⟨ps, hmem, Or.inr ⟨h, rfl⟩⟩
  · rintro ⟨ps, hmem, hcase⟩
    rcases hcase with ⟨hqp, hps'⟩ | ⟨hne, hps'⟩
    · exact ⟨(q, ps), hmem, by simp [hqp, hps']⟩
    · exact ⟨(q, ps), hmem, by simp [hne, hps']⟩

theorem goodState_updatePeerState {s : SMState} {p : PeerId}
    {f : PeerState → PeerState}
    (hfb : ∀ ps, (f ps).requestedBlocks = ps.requestedBlocks)
    (hft : ∀ ps, (f ps).requestedTxns = ps.requestedTxns)
    (hs : GoodState s) : GoodState (updatePeerState s p f) := by
  constructor
  · exact hs.mapKeysNodup
  · rw [updatePeerState_keys]; exact hs.peerKeysNodup
  · intro iv q hmem
    obtain ⟨ps, hps, hin⟩ := hs.mapToPeer iv q hmem
    by_cases h : q = p
    · refine ⟨f ps, mem_updatePeerState.mpr ⟨ps, hps, Or.inl ⟨h, rfl⟩⟩, ?_⟩
      rw [hfb, hft]
      exact hin
    · exact ⟨ps, mem_updatePeerState.mpr ⟨ps, hps, Or.inr ⟨h, rfl⟩⟩, hin⟩
  · intro q ps' hmem iv hin
    obtain ⟨ps, hps, hcase⟩ := mem_updatePeerState.mp hmem
    rcases hcase with ⟨hqp, hps'⟩ | ⟨hne, hps'⟩
    · have hin2 := hps' ▸ hin
      rw [hfb, hft] at hin2
      exact hs.peerToMap _ ps hps iv hin2
    · exact hs.peerToMap _ ps hps iv (hps' ▸ hin)
  · exact hs.logInChainOrder

theorem goodState_insertRequest {s : SMState} {p : PeerId} {iv : InvVect}
    {f : PeerState → PeerState}
    (hAdd : ∀ ps,
      ((f ps).requestedBlocks = ps.requestedBlocks ++ [iv] ∧
        (f ps).requestedTxns = ps.requestedTxns) ∨
      ((f ps).requestedBlocks = ps.requestedBlocks ∧
        (f ps).requestedTxns = ps.requestedTxns ++ [iv]))
    (hmnone : s.requestedMap.lookup iv = none)
    {ps₀ : PeerState} (hp₀ : s.peers.lookup p = some ps₀)
    (hs : GoodState s) {ob : List Action} :
    GoodState { updatePeerState s p f with
      requestedMap := s.requestedMap ++ [(iv, p)], outbox := ob } := by
  have hSub : ∀ ps jv, (jv ∈ ps.requestedBlocks ∨ jv ∈ ps.requestedTxns) →
      jv ∈ (f ps).requestedBlocks ∨ jv ∈ (f ps).requestedTxns := by
    intro ps jv hjv
    rcases hAdd ps with ⟨hb, ht⟩ | ⟨hb, ht⟩ <;> rw [hb, ht] <;>
      rcases hjv with h | h
    · exact Or.inl (List.mem_append_left _ h)
    · exact Or.inr h
    · exact Or.inl h
    · exact Or.inr (List.mem_append_left _ h)
  have hNew : ∀ ps, iv ∈ (f ps).requestedBlocks ∨ iv ∈ (f ps).requestedTxns := by
    intro ps
    rcases hAdd ps with ⟨hb, _⟩ | ⟨_, ht⟩
    · exact Or.inl (hb ▸ List.mem_append_right _ (List.mem_singleton.mpr rfl))
    · exact Or.inr (ht ▸ List.mem_append_right _ (List.mem_singleton.mpr rfl))
  have hBack : ∀ ps jv,
      (jv ∈ (f ps).requestedBlocks ∨ jv ∈ (f ps).requestedTxns) →
      (jv ∈ ps.requestedBlocks ∨ jv ∈ ps.requestedTxns) ∨ jv = iv := by
    intro ps jv hjv
    rcases hAdd ps with ⟨hb, ht⟩ | ⟨hb, ht⟩ <;> rw [hb, ht] at hjv <;>
      rcases hjv with h | h
    · rcases List.mem_append.mp h with h' | h'
      · exact Or.inl (Or.inl h')
      · exact Or.inr (List.mem_singleton.mp h')
    · exact Or.inl (Or.inr h)
    · exact Or.inl (Or.inl h)
    · rcases List.mem_append.mp h with h' | h'
      · exact Or.inl (Or.inr h')
      · exact Or.inr (List.mem_singleton.mp h')
  constructor
  · show ((s.requestedMap ++ [(iv, p)]).map Prod.fst).Nodup
    rw [List.map_append]
    exact nodup_append_singleton (not_mem_keys_of_lookup_none hmnone)
      hs.mapKeysNodup
  · show ((updatePeerState s p f).peers.map Prod.fst).Nodup
    rw [updatePeerState_keys]
    exact hs.peerKeysNodup
  · intro jv q hmem
    rcases List.mem_append.mp hmem with hold | hnew
    · obtain ⟨ps, hps, hin⟩ := hs.mapToPeer jv q hold
      by_cases hq : q = p
      · exact ⟨f ps, mem_updatePeerState.mpr ⟨ps, hps, Or.inl ⟨hq, rfl⟩⟩,
          hSub ps jv hin⟩
      · exact ⟨ps, mem_updatePeerState.mpr ⟨ps, hps, Or.inr ⟨hq, rfl⟩⟩, hin⟩
    · rw [List.mem_singleton] at hnew
      injection hnew with h1 h2
      subst h1; subst h2
      exact ⟨f ps₀, mem_updatePeerState.mpr
        ⟨ps₀, lookup_mem hp₀, Or.inl ⟨rfl, rfl⟩⟩, hNew ps₀⟩
  · intro q ps' hmem jv hin
    obtain ⟨ps, hps, hcase⟩ := mem_updatePeerState.mp hmem
    rcases hcase with ⟨hqp, hps'⟩ | ⟨hne, hps'⟩
    · subst hqp
      rcases hBack ps jv (hps' ▸ hin) with hold | hiv
      · exact List.mem_append_left _ (hs.peerToMap q ps hps jv hold)
      · subst hiv
        exact List.mem_append_right _ (List.mem_singleton.mpr rfl)
    · exact List.mem_append_left _ (hs.peerToMap q ps hps jv (hps' ▸ hin))
  · exact hs.logInChainOrder

theorem goodState_recordRequest {s : SMState} {p : PeerId} {iv : InvVect}
    {isBlock : Bool} (hs : GoodState s) :
    GoodState (recordRequest s p iv isBlock) := by
  rw [recordRequest]
  by_cases hg : ((s.requestedMap.lookup iv).isSome ||
      (s.peers.lookup p).isNone) = true
  · rw [if_pos hg]; exact hs
  · rw [if_neg hg]
    rw [Bool.or_eq_true, not_or] at hg
    obtain ⟨hg1, hg2⟩ := hg
    have hmnone : s.requestedMap.lookup iv = none := by
      cases hml : s.requestedMap.lookup iv with
      | none => rfl
      | some b => rw [hml] at hg1; simp at hg1
    obtain ⟨ps₀, hp₀⟩ : ∃ ps₀, s.peers.lookup p = some ps₀ := by
      cases hpl : s.peers.lookup p with
      | none => rw [hpl] at hg2; simp at hg2
      | some ps₀ => exact ⟨ps₀, rfl⟩
    cases isBlock
    · refine goodState_insertRequest ?_ hmnone hp₀ hs
      intro ps
      exact Or.inr ⟨rfl, rfl⟩
    · refine goodState_insertRequest ?_ hmnone hp₀ hs
      intro ps
      exact Or.inl ⟨rfl, rfl⟩

theorem goodState_removeRequest {s : SMState} {p : PeerId} {iv : InvVect}
    (hs : GoodState s) : GoodState (removeRequest s p iv) := by
  have h1 : (removeRequest s p iv).peers = (updatePeerState s p (fun ps =>
      { ps with
        requestedBlocks := ps.requestedBlocks.filter (fun jv => decide (jv ≠ iv)),
        requestedTxns := ps.requestedTxns.filter (fun jv => decide (jv ≠ iv)) })).peers := rfl
  have h2 : (removeRequest s p iv).requestedMap
      = s.requestedMap.filter (fun e => decide (¬(e.1 = iv ∧ e.2 = p))) := rfl
  have h3 : (removeRequest s p iv).headerChain = s.headerChain := rfl
  have h4 : (removeRequest s p iv).validatorLog = s.validatorLog := rfl
  constructor
  · rw [h2]
    exact List.Nodup.sublist
      (List.Sublist.map Prod.fst (List.filter_sublist _)) hs.mapKeysNodup
  · rw [h1, updatePeerState_keys]
    exact hs.peerKeysNodup
  · intro jv q hmem
    rw [h2, List.mem_filter] at hmem
    rw [h1]
    obtain ⟨hm, hcond⟩ := hmem
    rw [decide_eq_true_eq] at hcond
    obtain ⟨ps, hps, hin⟩ := hs.mapToPeer jv q hm
    by_cases hq : q = p
    · subst hq
      have hne : jv ≠ iv := fun hjv => hcond ⟨hjv, rfl⟩
      refine ⟨_, mem_updatePeerState.mpr ⟨ps, hps, Or.inl ⟨rfl, rfl⟩⟩, ?_⟩
      rcases hin with h | h
      · exact Or.inl (List.mem_filter.mpr ⟨h, decide_eq_true hne⟩)
      · exact Or.inr (List.mem_filter.mpr ⟨h, decide_eq_true hne⟩)
    · exact ⟨ps, mem_updatePeerState.mpr ⟨ps, hps, Or.inr ⟨hq, rfl⟩⟩, hin⟩
  · intro q ps' hmem jv hin
    rw [h1] at hmem
    rw [h2]
    obtain ⟨ps, hps, hcase⟩ := mem_updatePeerState.mp hmem
    rcases hcase with ⟨hqp, hps'⟩ | ⟨hne, hps'⟩
    · subst hqp
      have hin2 := hps' ▸ hin
      have hjv : (jv ∈ ps.requestedBlocks ∨ jv ∈ ps.requestedTxns) ∧ jv ≠ iv := by
        rcases hin2 with h | h <;>
          obtain ⟨h1', h2'⟩ := List.mem_filter.mp h <;>
          rw [decide_eq_true_eq] at h2'
        · exact ⟨Or.inl h1', h2'⟩
        · exact ⟨Or.inr h1', h2'⟩
      refine List.mem_filter.mpr ⟨hs.peerToMap q ps hps jv hjv.1, ?_⟩
      rw [decide_eq_true_eq]
      intro hcontra
      exact hjv.2 hcontra.1
    · refine List.mem_filter.mpr
        ⟨hs.peerToMap q ps hps jv (hps' ▸ hin), ?_⟩
      rw [decide_eq_true_eq]
      intro hcontra
      exact hne hcontra.2
  · rw [h3, h4]
    exact hs.logInChainOrder

theorem recordRequest_phase (s : SMState) (p : PeerId) (iv : InvVect)
    (isBlock : Bool) : (recordRequest s p iv isBlock).phase = s.phase := by
  rw [recordRequest]
  by_cases hg : ((s.requestedMap.lookup iv).isSome ||
      (s.peers.lookup p).isNone) = true
  · rw [if_pos hg]
  · rw [if_neg hg]; rfl

theorem goodState_requestBlockWindow {s : SMState} (hs : GoodState s) :
    GoodState (requestBlockWindow s) := by
  rw [requestBlockWindow]
  cases s.syncPeer with
  | none => exact hs
  | some sp =>
    have hfold : ∀ (cands : List Header) (t : SMState), GoodState t →
        GoodState (cands.foldl
          (fun st h => recordRequest st sp ⟨.block, h.hashH⟩ true) t) := by
      intro cands
      induction cands with
      | nil => intro t ht; exact ht
      | cons c cs ih => intro t ht; exact ih _ (goodState_recordRequest ht)
    exact (hfold _ _ hs).ofEq rfl rfl rfl rfl

theorem requestBlockWindow_phase (s : SMState) :
    (requestBlockWindow s).phase = s.phase := by
  rw [requestBlockWindow]
  cases s.syncPeer with
  | none => rfl
  | some sp =>
    have hfold : ∀ (cands : List Header) (t : SMState),
        (cands.foldl
          (fun st h => recordRequest st sp ⟨.block, h.hashH⟩ true) t).phase
          = t.phase := by
      intro cands
      induction cands with
      | nil => intro t; rfl
      | cons c cs ih =>
        intro t
        rw [List.foldl_cons, ih, recordRequest_phase]
    exact hfold _ _

theorem goodState_dropPeer {s : SMState} {p : PeerId} {ps : PeerState}
    (hmem_ps : (p, ps) ∈ s.peers) (hs : GoodState s) :
    GoodState (dropPeer s p ps) := by
  rw [dropPeer]
  constructor
  · exact List.Nodup.sublist
      (List.Sublist.map Prod.fst (List.filter_sublist _)) hs.mapKeysNodup
  · exact List.Nodup.sublist
      (List.Sublist.map Prod.fst (List.filter_sublist _)) hs.peerKeysNodup
  · intro jv q hmem
    rw [List.mem_filter] at hmem
    obtain ⟨hm, hcond⟩ := hmem
    rw [decide_eq_true_eq] at hcond
    obtain ⟨ps', hps', hin'⟩ := hs.mapToPeer jv q hm
    by_cases hq : q = p
    · subst hq
      have hps_eq : ps' = ps :=
        keys_nodup_mem_unique hs.peerKeysNodup hps' hmem_ps
      subst hps_eq
      exact absurd (List.mem_append.mpr hin') hcond
    · refine ⟨ps', List.mem_filter.mpr ⟨hps', ?_⟩, hin'⟩
      rw [decide_eq_true_eq]
      exact hq
  · intro q ps' hmem' jv hin'
    rw [List.mem_filter] at hmem'
    obtain ⟨hm', hq⟩ := hmem'
    rw [decide_eq_true_eq] at hq
    refine List.mem_filter.mpr ⟨hs.peerToMap q ps' hm' jv hin', ?_⟩
    rw [decide_eq_true_eq]
    intro hjv_in
    have h1 : (jv, p) ∈ s.requestedMap :=
      hs.peerToMap p ps hmem_ps jv (List.mem_append.mp hjv_in)
    have h2 : (jv, q) ∈ s.requestedMap := hs.peerToMap q ps' hm' jv hin'
    exact hq (keys_nodup_mem_unique hs.mapKeysNodup h2 h1)
  · exact hs.logInChainOrder

theorem goodState_purgePeer {s : SMState} {p : PeerId} (hs : GoodState s) :
    GoodState (purgePeer s p) := by
  rw [purgePeer]
  split
  · exact hs
  · next ps hpl =>
    have hcore := goodState_dropPeer (lookup_mem hpl) hs
    split
    · exact goodState_selectSyncPeer (hcore.ofEq rfl rfl rfl rfl)
    · exact hcore

theorem goodState_banPeer {s : SMState} {p : PeerId} (hs : GoodState s) :
    GoodState (banPeer s p) := by
  rw [banPeer]
  exact goodState_purgePeer (hs.ofEq rfl rfl rfl rfl)

theorem goodState_addPeer {s : SMState} {p : PeerId} {cand : Bool}
    {height : Nat} (hlp : s.peers.lookup p = none) (hs : GoodState s) :
    GoodState (addPeer s p cand height) := by
  rw [addPeer]
  constructor
  · exact hs.mapKeysNodup
  · show ((s.peers ++ [(p, initPeerState cand height)]).map Prod.fst).Nodup
    rw [List.map_append]
    show (s.peers.map Prod.fst ++ [p]).Nodup
    exact nodup_append_singleton (not_mem_keys_of_lookup_none hlp)
      hs.peerKeysNodup
  · intro jv q hmem
    obtain ⟨ps, hps, hin⟩ := hs.mapToPeer jv q hmem
    exact ⟨ps, List.mem_append_left _ hps, hin⟩
  · intro q ps' hmem jv hin
    rcases List.mem_append.mp hmem with hold | hnew
    · exact hs.peerToMap q ps' hold jv hin
    · rw [List.mem_singleton] at hnew
      injection hnew with h1 h2
      subst h2
      rcases hin with h | h <;> simp [initPeerState] at h
  · exact hs.logInChainOrder

theorem goodState_handleNewPeer {s : SMState} {p : PeerId} {cand : Bool}
    {height : Nat} (hs : GoodState s) :
    GoodState (handleNewPeer s p cand height) := by
  rw [handleNewPeer]
  by_cases hg : (decide (p ∈ s.banned) || (s.peers.lookup p).isSome) = true
  · rw [if_pos hg]; exact hs
  · rw [if_neg hg]
    rw [Bool.or_eq_true, not_or] at hg
    have hlp : s.peers.lookup p = none := by
      cases hpl : s.peers.lookup p with
      | none => rfl
      | some b => rw [hpl] at hg; simp at hg
    by_cases hsp : s.syncPeer.isNone = true
    · rw [if_pos hsp]
      exact goodState_selectSyncPeer (goodState_addPeer hlp hs)
    · rw [if_neg hsp]
      exact goodState_addPeer hlp hs

theorem goodState_handleInvVect {s : SMState} {p : PeerId} {iv : InvVect}
    (hs : GoodState s) : GoodState (handleInvVect p s iv) := by
  rw [handleInvVect]
  by_cases ht : iv.kind.isTx = true
  · rw [if_pos ht]
    exact goodState_recordRequest hs
  · rw [if_neg ht]
    by_cases hph : s.phase ≠ .current
    · rw [if_pos hph]
      exact goodState_updatePeerState (fun ps => rfl) (fun ps => rfl) hs
    · rw [if_neg hph]
      exact goodState_recordRequest hs

theorem goodState_handleInvMsg {s : SMState} {p : PeerId}
    {ivs : List InvVect} (hs : GoodState s) :
    GoodState (handleInvMsg s p ivs) := by
  rw [handleInvMsg]
  by_cases hg : (s.peers.lookup p).isNone = true
  · rw [if_pos hg]; exact hs
  · rw [if_neg hg]
    clear hg
    induction ivs generalizing s with
    | nil => exact hs
    | cons iv t ih =>
      rw [List.foldl_cons]
      exact ih (goodState_handleInvVect hs)

theorem drain_logInChainOrder (chain : List Header) (fuel : Nat) :
    ∀ (log buf : List BlockHash),
      (chain.map Header.hashH).take log.length = log →
      (chain.map Header.hashH).take
          (drain chain fuel log buf).1.length = (drain chain fuel log buf).1 := by
  induction fuel with
  | zero => intro log buf h; exact h
  | succ n ih =>
    intro log buf h
    rw [drain]
    split
    · exact h
    · next hd hc =>
      split
      · next hb =>
        apply ih
        have hlen : (log ++ [hd.hashH]).length = log.length + 1 := by
          rw [List.length_append, List.length_singleton]
        rw [hlen, List.take_succ, h, List.getElem?_map, hc]
        rfl
      · exact h

theorem goodState_drainBuffer {s : SMState} {h : BlockHash}
    (hs : GoodState s) : GoodState (drainBuffer s h) := by
  rw [drainBuffer]
  constructor
  · exact hs.mapKeysNodup
  · exact hs.peerKeysNodup
  · exact hs.mapToPeer
  · exact hs.peerToMap
  · exact drain_logInChainOrder s.headerChain _ _ _ hs.logInChainOrder

theorem goodState_advanceBlocks {s : SMState} {h : BlockHash}
    (hs : GoodState s) : GoodState (advanceBlocks s h) := by
  rw [advanceBlocks]
  by_cases hc : (drainBuffer s h).validatorLog.length = s.headerChain.length
  · rw [if_pos hc]
    exact (goodState_drainBuffer hs).ofEq rfl rfl rfl rfl
  · rw [if_neg hc]
    exact goodState_requestBlockWindow (goodState_drainBuffer hs)

theorem logInChainOrder_append {chain hs' : List Header} {log : List BlockHash}
    (h : (chain.map Header.hashH).take log.length = log) :
    (((chain ++ hs').map Header.hashH)).take log.length = log := by
  have hlen : log.length ≤ (chain.map Header.hashH).length := by
    have h2 := congrArg List.length h
    rw [List.length_take] at h2
    omega
  rw [List.map_append, List.take_append_of_le_length hlen, h]

theorem goodState_handleHeadersMsg {s : SMState} {p : PeerId}
    {hdrs : List Header} (hs : GoodState s) :
    GoodState (handleHeadersMsg s p hdrs) := by
  rw [handleHeadersMsg]
  by_cases h1 : (s.peers.lookup p).isNone = true
  · rw [if_pos h1]; exact hs
  rw [if_neg h1]
  by_cases h2 : s.syncPeer ≠ some p
  · rw [if_pos h2]; exact hs
  rw [if_neg h2]
  by_cases h3 : s.phase ≠ .syncingHeaders
  · rw [if_pos h3]; exact hs
  rw [if_neg h3]
  by_cases h4 : checkHeaders (headerTip s.headerChain) hdrs = true
  · rw [if_pos h4]
    have happ : GoodState { s with headerChain := s.headerChain ++ hdrs } := by
      constructor
      · exact hs.mapKeysNodup
      · exact hs.peerKeysNodup
      · exact hs.mapToPeer
      · exact hs.peerToMap
      · exact logInChainOrder_append hs.logInChainOrder
    by_cases h5 : hdrs.length = MaxBlockHeadersPerMsg
    · rw [if_pos h5]
      exact happ.ofEq rfl rfl rfl rfl
    · rw [if_neg h5]
      exact goodState_requestBlockWindow (happ.ofEq rfl rfl rfl rfl)
  · rw [if_neg h4]
    exact goodState_banPeer hs

theorem goodState_handleBlockMsg {s : SMState} {p : PeerId} {h : BlockHash}
    (hs : GoodState s) : GoodState (handleBlockMsg s p h) := by
  rw [handleBlockMsg]
  by_cases h1 : (s.peers.lookup p).isNone = true
  · rw [if_pos h1]; exact hs
  rw [if_neg h1]
  by_cases h2 : s.requestedMap.lookup ⟨.block, h⟩ ≠ some p
  · rw [if_pos h2]; exact hs
  rw [if_neg h2]
  by_cases h3 : s.phase = .current
  · rw [if_pos h3]
    exact (goodState_removeRequest hs).ofEq rfl rfl rfl rfl
  rw [if_neg h3]
  by_cases h4 : s.phase = .syncingBlocks
  · rw [if_pos h4]
    exact goodState_advanceBlocks (goodState_removeRequest hs)
  · rw [if_neg h4]
    exact goodState_removeRequest hs

theorem goodState_handleTxMsg {s : SMState} {p : PeerId} {h : BlockHash}
    (hs : GoodState s) : GoodState (handleTxMsg s p h) := by
  rw [handleTxMsg]
  by_cases h1 : (s.peers.lookup p).isNone = true
  · rw [if_pos h1]; exact hs
  rw [if_neg h1]
  by_cases h2 : s.requestedMap.lookup ⟨.tx, h⟩ ≠ some p
  · rw [if_pos h2]; exact hs
  · rw [if_neg h2]
    exact goodState_removeRequest hs

theorem goodState_step {s : SMState} (e : Event) (hs : GoodState s) :
    GoodState (step s e) := by
  cases e with
  | newPeer p c ht => exact goodState_handleNewPeer hs
  | donePeer p => exact goodState_purgePeer hs
  | invMsg p ivs => exact goodState_handleInvMsg hs
  | headersMsg p hdrs => exact goodState_handleHeadersMsg hs
  | blockMsg p h => exact goodState_handleBlockMsg hs
  | txMsg p h => exact goodState_handleTxMsg hs

theorem goodState_initState : GoodState initState := by
  constructor
  · simp [initState]
  · simp [initState]
  · intro iv p hmem; simp [initState] at hmem
  · intro p ps hmem; simp [initState] at hmem
  · simp [initState]

theorem goodState_run (evs : List Event) : GoodState (run evs) := by
  rw [run]
  have hfold : ∀ (l : List Event) (t : SMState), GoodState t →
      GoodState (l.foldl step t) := by
    intro l
    induction l with
    | nil => intro t ht; exact ht
    | cons e es ih =>
      intro t ht
      rw [List.foldl_cons]
      exact ih _ (goodState_step e ht)
  exact hfold evs initState goodState_initState

theorem selectSyncPeer_banned (s : SMState) :
    (selectSyncPeer s).banned = s.banned := by
  rw [selectSyncPeer]; split <;> rfl

theorem selectSyncPeer_headerChain (s : SMState) :
    (selectSyncPeer s).headerChain = s.headerChain := by
  rw [selectSyncPeer]; split <;> rfl

theorem selectSyncPeer_peers (s : SMState) :
    (selectSyncPeer s).peers = s.peers := by
  rw [selectSyncPeer]; split <;> rfl

theorem purgePeer_spec {s : SMState} {p : PeerId} {ps : PeerState}
    (hpl : s.peers.lookup p = some ps) (hsp : s.syncPeer = some p) :
    purgePeer s p = selectSyncPeer { dropPeer s p ps with syncPeer := none } := by
  rw [purgePeer]
  split
  · next hnone => rw [hpl] at hnone; cases hnone
  · next ps' hpl' =>
    rw [hpl] at hpl'
    injection hpl' with he
    subst he
    rw [if_pos hsp]

theorem recordRequest_headerChain (s : SMState) (p : PeerId) (iv : InvVect)
    (isBlock : Bool) :
    (recordRequest s p iv isBlock).headerChain = s.headerChain := by
  rw [recordRequest]; split <;> rfl

theorem requestBlockWindow_headerChain (s : SMState) :
    (requestBlockWindow s).headerChain = s.headerChain := by
  rw [requestBlockWindow]
  cases s.syncPeer with
  | none => rfl
  | some sp =>
    have hfold : ∀ (cands : List Header) (t : SMState),
        (cands.foldl
          (fun st h => recordRequest st sp ⟨.block, h.hashH⟩ true) t).headerChain
          = t.headerChain := by
      intro cands
      induction cands with
      | nil => intro t; rfl
      | cons c cs ih =>
        intro t
        rw [List.foldl_cons, ih, recordRequest_headerChain]
    exact hfold _ _

/-- C1: during catch-up, the sequence of blocks submitted to the validator
is always an initial segment (prefix) of the HeaderChain, for every trace
of events — even when block messages arrive out of order, the validator
never receives a block before its parent. -/
theorem validator_receives_headerChain_order (evs : List Event) :
    ((run evs).headerChain.map Header.hashH).take (run evs).validatorLog.length
      = (run evs).validatorLog :=
  (goodState_run evs).logInChainOrder

/-- C2: in every reachable state, the RequestedMap maps each inventory
fingerprint to at most one peer, and equivalently a fingerprint is in at
most one connected peer's requestedBlocks set. -/
theorem requestedMap_at_most_one_peer (evs : List Event) (iv : InvVect)
    (p q : PeerId) :
    ((iv, p) ∈ (run evs).requestedMap → (iv, q) ∈ (run evs).requestedMap →
        p = q) ∧
    (∀ psp psq, (p, psp) ∈ (run evs).peers → (q, psq) ∈ (run evs).peers →
        iv ∈ psp.requestedBlocks → iv ∈ psq.requestedBlocks → p = q) := by
  have hg := goodState_run evs
  constructor
  · intro h1 h2
    exact keys_nodup_mem_unique hg.mapKeysNodup h1 h2
  · intro psp psq hp hq hbp hbq
    exact keys_nodup_mem_unique hg.mapKeysNodup
      (hg.peerToMap p psp hp iv (Or.inl hbp))
      (hg.peerToMap q psq hq iv (Or.inl hbq))

theorem requestedMap_at_most_one_peer_witness :
    ((⟨.tx, 9⟩ : InvVect), 1) ∈
      (run [.newPeer 1 true 5, .invMsg 1 [⟨.tx, 9⟩]]).requestedMap ∧
    (1 : PeerId) = 1 :=
  ⟨by decide,
    (requestedMap_at_most_one_peer [.newPeer 1 true 5, .invMsg 1 [⟨.tx, 9⟩]]
      ⟨.tx, 9⟩ 1 1).1 (by decide) (by decide)⟩

/-- C5: in every reachable state, no RequestedMap entry maps a fingerprint
to a disconnected peer (DonePeer removes the entries of the departing
peer's requestedBlocks/requestedTxns). -/
theorem requestedMap_only_connected_peers (evs : List Event) (iv : InvVect)
    (p : PeerId) :
    (iv, p) ∈ (run evs).requestedMap → p ∈ (run evs).peers.map Prod.fst := by
  intro h
  obtain ⟨ps, hps, _⟩ := (goodState_run evs).mapToPeer iv p h
  exact List.mem_map.mpr ⟨(p, ps), hps, rfl⟩

theorem requestedMap_only_connected_peers_witness :
    ((⟨.tx, 9⟩ : InvVect), 1) ∈
      (run [.newPeer 1 true 5, .invMsg 1 [⟨.tx, 9⟩]]).requestedMap ∧
    (1 : PeerId) ∈
      (run [.newPeer 1 true 5, .invMsg 1 [⟨.tx, 9⟩]]).peers.map Prod.fst :=
  ⟨by decide,
    requestedMap_only_connected_peers [.newPeer 1 true 5, .invMsg 1 [⟨.tx, 9⟩]]
      ⟨.tx, 9⟩ 1 (by decide)⟩

/-- C3: processing a HeadersMsg is atomic — if any header of the batch
fails PoW/linkage verification, the HeaderChain is unchanged, the sender is
banned and disconnected, and the sync peer is re-selected away from it;
when every header verifies, the batch is appended whole. -/
theorem headersMsg_batch_atomic (s : SMState) (p : PeerId)
    (hdrs : List Header)
    (hconn : (s.peers.lookup p).isSome = true)
    (hsp : s.syncPeer = some p)
    (hph : s.phase = .syncingHeaders) :
    (checkHeaders (headerTip s.headerChain) hdrs = false →
      (handleHeadersMsg s p hdrs).headerChain = s.headerChain ∧
      p ∈ (handleHeadersMsg s p hdrs).banned ∧
      (handleHeadersMsg s p hdrs).peers.lookup p = none ∧
      (handleHeadersMsg s p hdrs).syncPeer ≠ some p) ∧
    (checkHeaders (headerTip s.headerChain) hdrs = true →
      (handleHeadersMsg s p hdrs).headerChain = s.headerChain ++ hdrs) := by
  obtain ⟨ps, hpl⟩ : ∃ ps, s.peers.lookup p = some ps := by
    cases hx : s.peers.lookup p with
    | none => rw [hx] at hconn; cases hconn
    | some ps => exact ⟨ps, rfl⟩
  have h1 : ¬((s.peers.lookup p).isNone = true) := by
    rw [hpl]; simp
  have h2 : ¬(s.syncPeer ≠ some p) := not_not_intro hsp
  have h3 : ¬(s.phase ≠ Phase.syncingHeaders) := not_not_intro hph
  rw [handleHeadersMsg, if_neg h1, if_neg h2, if_neg h3]
  constructor
  · intro hcf
    rw [if_neg (by rw [hcf]; simp)]
    have hplb : ({ s with banned := p :: s.banned } : SMState).peers.lookup p
        = some ps := hpl
    have hspb : ({ s with banned := p :: s.banned } : SMState).syncPeer
        = some p := hsp
    have hred : banPeer s p = selectSyncPeer
        { dropPeer { s with banned := p :: s.banned } p ps with
          syncPeer := none } := by
      rw [banPeer]
      exact purgePeer_spec hplb hspb
    refine ⟨?_, ?_, ?_, ?_⟩
    · rw [hred, selectSyncPeer_headerChain]
      rfl
    · rw [hred, selectSyncPeer_banned]
      exact List.mem_cons_self p s.banned
    · rw [hred, selectSyncPeer_peers]
      apply lookup_eq_none_of_not_mem
      intro b hb
      have hb' : (p, b) ∈ s.peers.filter (fun pp => decide (pp.1 ≠ p)) := hb
      have := (List.mem_filter.mp hb').2
      simp at this
    · rw [hred]
      apply selectSyncPeer_ne
      intro ps' hmem
      have hb' : (p, ps') ∈ s.peers.filter (fun pp => decide (pp.1 ≠ p)) := hmem
      have := (List.mem_filter.mp hb').2
      simp at this
  · intro hct
    rw [if_pos hct]
    by_cases h5 : hdrs.length = MaxBlockHeadersPerMsg
    · rw [if_pos h5]
    · rw [if_neg h5, requestBlockWindow_headerChain]

theorem headersMsg_batch_atomic_witness :
    ((run [.newPeer 1 true 5, .newPeer 2 true 7]).peers.lookup 1).isSome
        = true ∧
    (run [.newPeer 1 true 5, .newPeer 2 true 7]).syncPeer = some 1 ∧
    (run [.newPeer 1 true 5, .newPeer 2 true 7]).phase = .syncingHeaders ∧
    ((checkHeaders
        (headerTip (run [.newPeer 1 true 5, .newPeer 2 true 7]).headerChain)
        [⟨10, 0, false⟩] = false →
      (handleHeadersMsg (run [.newPeer 1 true 5, .newPeer 2 true 7]) 1
          [⟨10, 0, false⟩]).headerChain
        = (run [.newPeer 1 true 5, .newPeer 2 true 7]).headerChain ∧
      1 ∈ (handleHeadersMsg (run [.newPeer 1 true 5, .newPeer 2 true 7]) 1
          [⟨10, 0, false⟩]).banned ∧
      (handleHeadersMsg (run [.newPeer 1 true 5, .newPeer 2 true 7]) 1
          [⟨10, 0, false⟩]).peers.lookup 1 = none ∧
      (handleHeadersMsg (run [.newPeer 1 true 5, .newPeer 2 true 7]) 1
          [⟨10, 0, false⟩]).syncPeer ≠ some 1) ∧
    (checkHeaders
        (headerTip (run [.newPeer 1 true 5, .newPeer 2 true 7]).headerChain)
        [⟨10, 0, false⟩] = true →
      (handleHeadersMsg (run [.newPeer 1 true 5, .newPeer 2 true 7]) 1
          [⟨10, 0, false⟩]).headerChain
        = (run [.newPeer 1 true 5, .newPeer 2 true 7]).headerChain
            ++ [⟨10, 0, false⟩])) :=
  ⟨by decide, by decide, by decide,
    headersMsg_batch_atomic (run [.newPeer 1 true 5, .newPeer 2 true 7]) 1
      [⟨10, 0, false⟩] (by decide) (by decide) (by decide)⟩

/-- C4: after a valid headers batch, the next action is determined by the
batch size — a full batch of exactly 2000 headers triggers another
getheaders from the new tip's locator while staying in the headers-first
phase; any batch of fewer than 2000 headers transitions to the
block-download phase. -/
theorem headersMsg_batch_size_drives_transition (s : SMState) (p : PeerId)
    (hdrs : List Header)
    (hconn : (s.peers.lookup p).isSome = true)
    (hsp : s.syncPeer = some p)
    (hph : s.phase = .syncingHeaders)
    (hv : checkHeaders (headerTip s.headerChain) hdrs = true) :
    (hdrs.length = 2000 →
      (handleHeadersMsg s p hdrs).phase = .syncingHeaders ∧
      (handleHeadersMsg s p hdrs).outbox
        = s.outbox ++ [.getHeaders p (headerTip (s.headerChain ++ hdrs))]) ∧
    (hdrs.length < 2000 →
      (handleHeadersMsg s p hdrs).phase = .syncingBlocks) := by
  have h1 : ¬((s.peers.lookup p).isNone = true) := by
    cases hx : s.peers.lookup p with
    | none => rw [hx] at hconn; cases hconn
    | some ps => simp
  have h2 : ¬(s.syncPeer ≠ some p) := not_not_intro hsp
  have h3 : ¬(s.phase ≠ Phase.syncingHeaders) := not_not_intro hph
  rw [handleHeadersMsg, if_neg h1, if_neg h2, if_neg h3, if_pos hv,
    show MaxBlockHeadersPerMsg = 2000 from rfl]
  constructor
  · intro h2000
    rw [if_pos h2000]
    exact ⟨hph, rfl⟩
  · intro hlt
    have hne : hdrs.length ≠ 2000 := by omega
    rw [if_neg hne, requestBlockWindow_phase]

theorem headersMsg_batch_size_drives_transition_witness :
    ((run [.newPeer 1 true 5]).peers.lookup 1).isSome = true ∧
    (run [.newPeer 1 true 5]).syncPeer = some 1 ∧
    (run [.newPeer 1 true 5]).phase = .syncingHeaders ∧
    checkHeaders (headerTip (run [.newPeer 1 true 5]).headerChain)
        [⟨10, 0, true⟩] = true ∧
    (((([⟨10, 0, true⟩] : List Header)).length = 2000 →
      (handleHeadersMsg (run [.newPeer 1 true 5]) 1 [⟨10, 0, true⟩]).phase
          = .syncingHeaders ∧
      (handleHeadersMsg (run [.newPeer 1 true 5]) 1 [⟨10, 0, true⟩]).outbox
        = (run [.newPeer 1 true 5]).outbox ++
            [.getHeaders 1
              (headerTip ((run [.newPeer 1 true 5]).headerChain
                ++ [⟨10, 0, true⟩]))]) ∧
    ((([⟨10, 0, true⟩] : List Header)).length < 2000 →
      (handleHeadersMsg (run [.newPeer 1 true 5]) 1 [⟨10, 0, true⟩]).phase
          = .syncingBlocks)) :=
  ⟨by decide, by decide, by decide, by decide,
    headersMsg_batch_size_drives_transition (run [.newPeer 1 true 5]) 1
      [⟨10, 0, true⟩] (by decide) (by decide) (by decide) (by decide)⟩

end SyncModel


namespace Netsync

/-- C7: the `PeerNotifier` interface of src/netsync/interface.go consists of
exactly the four methods `AnnounceNewTransactions`, `UpdatePeerHeights`,
`RelayInventory` and `TransactionConfirmed` with their declared argument
types: projecting a `PeerNotifier` record onto the 4-tuple of its methods
is a bijection, and an interface call is exactly one of the four method
invocations with exactly the declared arguments (the call type is in
bijection with the sum of the four argument signatures). -/
theorem peerNotifier_exactly_four_methods :
    Function.Bijective PeerNotifier.repr ∧
      Function.Bijective PeerNotifierCall.repr := by
  constructor
  · constructor
    · intro a b h
      cases a
      cases b
      injection h with h1 h'
      injection h' with h2 h''
      injection h'' with h3 h4
      subst h1; subst h2; subst h3; subst h4
      rfl
    · intro y
      obtain ⟨f1, f2, f3, f4⟩ := y
      exact ⟨⟨f1, f2, f3, f4⟩, rfl⟩
  · constructor
    · intro a b h
      cases a <;> cases b <;>
        simp only [PeerNotifierCall.repr, Sum.inl.injEq, Sum.inr.injEq,
          Prod.mk.injEq, reduceCtorEq] at h
      · rw [h]
      · obtain ⟨e1, e2, e3⟩ := h
        rw [e1, e2, e3]
      · obtain ⟨e1, e2⟩ := h
        rw [e1, e2]
      · rw [h]
    · intro y
      rcases y with txs | ⟨bh, ht, src⟩ | ⟨iv, d⟩ | tx
      · exact ⟨.announceNewTransactions txs, rfl⟩
      · exact ⟨.updatePeerHeights bh ht src, rfl⟩
      · exact ⟨.relayInventory iv d, rfl⟩
      · exact ⟨.transactionConfirmed tx, rfl⟩

/-- C6: the `Config` struct of src/netsync/interface.go has exactly the
seven fields PeerNotifier, Chain, TxMemPool, ChainParams,
DisableCheckpoints, MaxPeers and FeeEstimator: projecting a `Config` onto
the 7-tuple of its fields is a bijection, and the embedded construction is
a pure function of those fields (no environment or file input exists in
the model). -/
theorem config_exactly_seven_fields : Function.Bijective Config.repr := by
  constructor
  · intro a b h
    cases a
    cases b
    simp only [Config.repr, Prod.mk.injEq] at h
    obtain ⟨h1, h2, h3, h4, h5, h6, h7⟩ := h
    subst h1; subst h2; subst h3; subst h4; subst h5; subst h6; subst h7
    rfl
  · intro y
    obtain ⟨c1, c2, c3, c4, c5, c6, c7⟩ := y
    exact ⟨⟨c1, c2, c3, c4, c5, c6, c7⟩, rfl⟩

end Netsync

namespace Wire

theorem ReadVarInt_WriteVarInt (n : Nat) (rest : List Nat)
    (hn : n < 4294967296) :
    ReadVarInt (WriteVarInt n ++ rest) = .ok (n, rest) := by
  rw [WriteVarInt]
  by_cases h1 : n < 0xfd
  · rw [if_pos h1]
    simp only [List.cons_append, List.nil_append, ReadVarInt]
    rw [if_neg (by omega : ¬n = 0xff), if_neg (by omega : ¬n = 0xfe),
      if_neg (by omega : ¬n = 0xfd)]
  · rw [if_neg h1]
    by_cases h2 : n ≤ 0xffff
    · rw [if_pos h2]
      simp only [List.cons_append, List.nil_append, ReadVarInt]
      rw [if_neg (by omega : ¬(0xfd : Nat) = 0xff),
        if_neg (by omega : ¬(0xfd : Nat) = 0xfe)]
      simp only [if_true]
      have e1 : n % 256 + 256 * (n / 256 % 256) = n := by omega
      rw [e1, if_neg (by omega)]
    · rw [if_neg h2, if_pos (by omega : n ≤ 0xffffffff)]
      simp only [List.cons_append, List.nil_append, ReadVarInt]
      rw [if_neg (by omega : ¬(0xfe : Nat) = 0xff)]
      simp only [if_true]
      have e1 : n % 256 + 256 * (n / 256 % 256) + 65536 * (n / 65536 % 256) +
          16777216 * (n / 16777216 % 256) = n := by omega
      rw [e1, if_neg (by omega)]

theorem ReadVarBytes_WriteVarBytes (pver maxAllowed : Nat) (d : List Nat)
    (hd : d.length ≤ maxAllowed) (hd32 : d.length < 4294967296) :
    ReadVarBytes pver maxAllowed (WriteVarBytes pver d) = .ok (d, []) := by
  rw [ReadVarBytes, WriteVarBytes, ReadVarInt_WriteVarInt d.length d hd32]
  show (if maxAllowed < d.length then
      Except.error "variable length byte array is too long"
    else if d.length < d.length then Except.error "unexpected EOF"
    else Except.ok (d.take d.length, d.drop d.length)) = Except.ok (d, [])
  rw [if_neg (Nat.not_lt.mpr hd), if_neg (by omega), List.take_length,
    List.drop_length]

/-- C8: for every byte slice of length at most `MaxFilterAddDataSize` (520)
and every protocol version at least `BIP0037Version`, encoding a
`MsgFilterAdd` and decoding the produced bytes at the same version
succeeds and returns a message with the same `Data`. -/
theorem msgFilterAdd_roundtrip (pver : Nat) (d : List Nat)
    (hp : BIP0037Version ≤ pver) (hd : d.length ≤ MaxFilterAddDataSize) :
    (MsgFilterAdd.BronEncode ⟨d⟩ pver).bind
      (fun bs => MsgFilterAdd.BronDecode pver bs) = .ok (⟨d⟩, []) := by
  rw [MsgFilterAdd.BronEncode, if_neg (Nat.not_lt.mpr hp),
    if_neg (Nat.not_lt.mpr hd)]
  show MsgFilterAdd.BronDecode pver (WriteVarBytes pver d) = .ok (⟨d⟩, [])
  rw [MsgFilterAdd.BronDecode, if_neg (Nat.not_lt.mpr hp),
    ReadVarBytes_WriteVarBytes pver MaxFilterAddDataSize d hd
      (Nat.lt_of_le_of_lt hd (by norm_num : (520 : Nat) < 4294967296))]
  rfl

theorem msgFilterAdd_roundtrip_witness :
    BIP0037Version ≤ 70001 ∧
    ([1, 2, 3] : List Nat).length ≤ MaxFilterAddDataSize ∧
    (MsgFilterAdd.BronEncode ⟨[1, 2, 3]⟩ 70001).bind
      (fun bs => MsgFilterAdd.BronDecode 70001 bs) = .ok (⟨[1, 2, 3]⟩, []) :=
  ⟨by decide, by decide,
    msgFilterAdd_roundtrip 70001 [1, 2, 3] (by decide) (by decide)⟩

/-- C9: `MsgFilterAdd.BronEncode` returns an error exactly when the
protocol version is below `BIP0037Version` or the data exceeds
`MaxFilterAddDataSize` (520) bytes; both checks precede the write, so an
erroneous encode produces no output bytes (the result carries bytes only
in the `ok` case). -/
theorem msgFilterAdd_encode_error_iff (msg : MsgFilterAdd) (pver : Nat) :
    (∃ e, MsgFilterAdd.BronEncode msg pver = .error e) ↔
      pver < BIP0037Version ∨ MaxFilterAddDataSize < msg.Data.length := by
  rw [MsgFilterAdd.BronEncode]
  by_cases h1 : pver < BIP0037Version
  · rw [if_pos h1]
    simp [h1]
  · rw [if_neg h1]
    by_cases h2 : msg.Data.length > MaxFilterAddDataSize
    · rw [if_pos h2]
      simp [h1, h2]
    · rw [if_neg h2]
      simp [h1, h2]

/-- C10: `MsgGetCFilters` encode/decode perform no protocol-version check:
for every protocol version (including 0, `pver` below `BIP0037Version` and
`FeeFilterVersion`), encoding any well-formed (FilterType, StartHeight,
StopHash) triple succeeds (the pure writer is total) and decoding the
produced bytes at the same version recovers exactly the three fields. -/
theorem msgGetCFilters_roundtrip (pver ft sh : Nat) (stop : List Nat)
    (hft : ft < 256) (hsh : sh < 4294967296) (hstop : stop.length = 32) :
    MsgGetCFilters.BronDecode pver
        (MsgGetCFilters.BronEncode ⟨ft, sh, stop⟩ pver)
      = .ok (⟨ft, sh, stop⟩, []) := by
  have hbuf : MsgGetCFilters.BronEncode ⟨ft, sh, stop⟩ pver
      = ft % 256 :: sh % 256 :: sh / 256 % 256 :: sh / 65536 % 256 ::
        sh / 16777216 % 256 :: stop := rfl
  have eh : readHash32 stop = .ok (stop, []) := by
    rw [readHash32, if_neg (by omega)]
    rw [show (32 : Nat) = stop.length from hstop.symm, List.take_length,
      List.drop_length]
  rw [hbuf, MsgGetCFilters.BronDecode]
  show Except.bind (readHash32 stop) (fun x =>
      (Except.ok (({ FilterType := ft % 256,
                     StartHeight := sh % 256 + 256 * (sh / 256 % 256) +
                       65536 * (sh / 65536 % 256) +
                       16777216 * (sh / 16777216 % 256),
                     StopHash := x.1 } : MsgGetCFilters), x.2) :
        Except String (MsgGetCFilters × List Nat)))
    = Except.ok (⟨ft, sh, stop⟩, [])
  rw [eh]
  show (Except.ok (({ FilterType := ft % 256,
                      StartHeight := sh % 256 + 256 * (sh / 256 % 256) +
                        65536 * (sh / 65536 % 256) +
                        16777216 * (sh / 16777216 % 256),
                      StopHash := stop } : MsgGetCFilters), ([] : List Nat)) :
      Except String (MsgGetCFilters × List Nat))
    = Except.ok (⟨ft, sh, stop⟩, [])
  rw [Nat.mod_eq_of_lt hft,
    show sh % 256 + 256 * (sh / 256 % 256) + 65536 * (sh / 65536 % 256) +
      16777216 * (sh / 16777216 % 256) = sh by omega]

theorem msgGetCFilters_roundtrip_witness :
    (1 : Nat) < 256 ∧ (5 : Nat) < 4294967296 ∧
    (List.replicate 32 (7 : Nat)).length = 32 ∧
    MsgGetCFilters.BronDecode 0
        (MsgGetCFilters.BronEncode ⟨1, 5, List.replicate 32 7⟩ 0)
      = .ok (⟨1, 5, List.replicate 32 7⟩, []) :=
  ⟨by decide, by decide, by decide,
    msgGetCFilters_roundtrip 0 1 5 (List.replicate 32 7) (by decide)
      (by decide) (by decide)⟩

end Wire
